import Mathlib

/-!
Verification of the ralph-cli iteration supervisor.

The TypeScript sources are embedded shallowly: JavaScript strings are
lists of characters, the stateful classes (StreamParser,
CompletionDetector, TaskDetector) become explicit state-passing
functions, and the retry/supervisor loops become structurally recursive
functions over the remaining attempt/iteration budget.  Effectful pieces
(JSON.parse plus event validation, the regex table of the task detector)
enter as abstract function parameters, so every theorem quantifying over
them covers the concrete behaviour.
-/

namespace Ralph

/-! ## Stream decoder (stream-parser.ts, class StreamParser)

The parser keeps a single string buffer.  write appends the chunk and
splits the buffer at newline characters; every segment but the last is a
complete line (trimmed, skipped when empty, otherwise parsed), the last
segment stays buffered.  flush parses the trimmed remainder. -/

/-- Characters stripped by JavaScript String.prototype.trim (the ASCII
whitespace characters and the no-break space). -/
def isJsWhitespace (c : Char) : Bool :=
  c = ' ' || c = '\t' || c = '\n' || c = '\r' ||
    c = Char.ofNat 11 || c = Char.ofNat 12 || c = Char.ofNat 160

/-- JavaScript trim: drop whitespace from both ends. -/
def jsTrim (s : List Char) : List Char :=
  ((s.dropWhile isJsWhitespace).reverse.dropWhile isJsWhitespace).reverse

/-- Splitting the buffer at newlines, as processBuffer does with
buffer.split: the first component lists the complete lines (all split
segments but the last), the second is the trailing segment that stays in
the buffer.  The length-one early return of processBuffer coincides with
the general case, since a newline-free buffer yields no complete line and
is kept whole. -/
def splitLines : List Char → List (List Char) × List Char
  | [] => ([], [])
  | c :: rest =>
    let p := splitLines rest
    if c = '\n' then
      ([] :: p.1, p.2)
    else
      match p with
      | ([], r) => ([], c :: r)
      | (l :: ls, r) => ((c :: l) :: ls, r)

/-- Gluing the split of a second string onto the split of a first: the
remainder of the first string extends the first line of the second. -/
def combineSplit (p q : List (List Char) × List Char) :
    List (List Char) × List Char :=
  match q.1 with
  | [] => (p.1, p.2 ++ q.2)
  | l :: ls => (p.1 ++ (p.2 ++ l) :: ls, q.2)

theorem splitLines_append (a b : List Char) :
    splitLines (a ++ b) = combineSplit (splitLines a) (splitLines b) := by
  induction a with
  | nil =>
    rcases h : splitLines b with ⟨lb, rb⟩
    cases lb <;> simp [combineSplit, splitLines, h]
  | cons c a ih =>
    by_cases hc : c = '\n'
    · subst hc
      rcases ha : splitLines a with ⟨la, ra⟩
      rcases hb : splitLines b with ⟨lb, rb⟩
      cases lb <;>
        simp [splitLines, ih, combineSplit, ha, hb]
    · rcases ha : splitLines a with ⟨la, ra⟩
      rcases hb : splitLines b with ⟨lb, rb⟩
      cases la <;> cases lb <;>
        simp [splitLines, ih, combineSplit, ha, hb, hc]

/-- The trailing segment produced by splitLines contains no newline. -/
theorem splitLines_snd_no_newline (s : List Char) : '\n' ∉ (splitLines s).2 := by
  induction s with
  | nil => simp [splitLines]
  | cons c rest ih =>
    rcases h : splitLines rest with ⟨ls, r⟩
    rw [h] at ih
    by_cases hc : c = '\n'
    · subst hc; simpa [splitLines, h] using ih
    · have hc' : ¬ '\n' = c := fun hx => hc hx.symm
      cases ls <;> simp_all [splitLines, hc, hc']

/-- A newline-free string splits into no complete line and itself. -/
theorem splitLines_of_no_newline (s : List Char) (h : '\n' ∉ s) :
    splitLines s = ([], s) := by
  induction s with
  | nil => simp [splitLines]
  | cons c rest ih =>
    have hc : ¬ c = '\n' := fun hx => h (hx ▸ List.mem_cons_self c rest)
    have ih' := ih (fun hx => h (List.mem_cons_of_mem c hx))
    simp [splitLines, ih', hc]

section StreamRecords

variable {E : Type}

/-- Records produced from a list of complete lines: each is trimmed,
empty lines are skipped, the rest go through parseLine, abstracted as
parseF (covering JSON.parse, event validation, and the warning path,
which emits no record). -/
def emitRecords (parseF : List Char → Option E) (ls : List (List Char)) : List E :=
  ls.filterMap fun l => if jsTrim l = [] then none else parseF (jsTrim l)

/-- StreamParser.write on the state (records emitted so far, buffer):
append the chunk, split off the complete lines, emit their records, and
keep the trailing segment buffered. -/
def write (parseF : List Char → Option E) (st : List E × List Char)
    (chunk : List Char) : List E × List Char :=
  let p := splitLines (st.2 ++ chunk)
  (st.1 ++ emitRecords parseF p.1, p.2)

/-- StreamParser.flush: parse the trimmed buffer when nonempty. -/
def flushRecords (parseF : List Char → Option E) (buf : List Char) : List E :=
  if jsTrim buf = [] then [] else (parseF (jsTrim buf)).toList

/-- Feeding a list of chunks through write in order, then one flush:
the full ordered record list of the stream. -/
def runChunks (parseF : List Char → Option E) (chunks : List (List Char)) : List E :=
  let st := chunks.foldl (write parseF) ([], [])
  st.1 ++ flushRecords parseF st.2

/-- parseNdjson: one write of the whole data followed by flush. -/
def parseNdjson (parseF : List Char → Option E) (data : List Char) : List E :=
  runChunks parseF [data]

theorem emitRecords_nil (parseF : List Char → Option E) :
    emitRecords parseF [] = [] := rfl

theorem emitRecords_append (parseF : List Char → Option E) (xs ys : List (List Char)) :
    emitRecords parseF (xs ++ ys) = emitRecords parseF xs ++ emitRecords parseF ys := by
  simp [emitRecords, List.filterMap_append]

/-- Writing two chunks in sequence is the same as writing their
concatenation at once. -/
theorem write_write (parseF : List Char → Option E) (st : List E × List Char)
    (a b : List Char) :
    write parseF (write parseF st a) b = write parseF st (a ++ b) := by
  have h1 : splitLines (st.2 ++ (a ++ b))
      = combineSplit (splitLines (st.2 ++ a)) (splitLines b) := by
    rw [← List.append_assoc, splitLines_append]
  have h2 : splitLines ((splitLines (st.2 ++ a)).2 ++ b)
      = combineSplit ([], (splitLines (st.2 ++ a)).2) (splitLines b) := by
    rw [splitLines_append,
      splitLines_of_no_newline _ (splitLines_snd_no_newline (st.2 ++ a))]
  rcases hA : splitLines (st.2 ++ a) with ⟨la, ra⟩
  rcases hB : splitLines b with ⟨lb, rb⟩
  rw [hA, hB] at h1 h2
  cases lb <;>
    simp [write, hA, h1, h2, combineSplit, emitRecords_append, emitRecords_nil,
      List.append_assoc]

theorem foldl_write_join (parseF : List Char → Option E) (c : List Char)
    (cs : List (List Char)) (st : List E × List Char) :
    (c :: cs).foldl (write parseF) st = write parseF st (c :: cs).flatten := by
  induction cs generalizing c st with
  | nil => simp [List.foldl]
  | cons d cs ih =>
    have := ih d (write parseF st c)
    simp only [List.foldl_cons] at this ⊢
    rw [this, write_write]
    simp

end StreamRecords

/-- Claim C1: for every NDJSON text and every split of it into chunks,
feeding the chunks in order to StreamParser.write followed by one flush
emits exactly the same ordered record list as feeding the whole text in a
single write followed by flush, which is what parseNdjson does.  The
theorem quantifies over the line parser, hence covers the concrete
JSON.parse-plus-validation used by the source. -/
theorem streamParser_chunking_invariant {E : Type} (parseF : List Char → Option E)
    (chunks : List (List Char)) :
    runChunks parseF chunks = parseNdjson parseF chunks.flatten := by
  cases chunks with
  | nil => simp [runChunks, parseNdjson, write, splitLines, emitRecords]
  | cons c cs =>
    unfold parseNdjson runChunks
    rw [foldl_write_join parseF c cs]
    simp [List.foldl_cons, List.foldl_nil]

/-! ## Completion detector (completion-detection.ts, class CompletionDetector)

The detector keeps a sticky isComplete flag and a trailing content buffer
capped at 100 characters.  processContent appends the new content, trims
the buffer to its last 100 characters, and only then scans the buffer for
the exact marker literal. -/

/-- The completion marker literal COMPLETION_MARKER. -/
def COMPLETION_MARKER : List Char := "<promise>COMPLETE</promise>".toList

/-- JavaScript String.prototype.includes: the needle occurs as a
contiguous substring of the haystack. -/
def includesSub : List Char → List Char → Bool
  | [], needle => needle.isPrefixOf ([] : List Char)
  | c :: t, needle => needle.isPrefixOf (c :: t) || includesSub t needle

/-- detectCompletion: empty content never matches; otherwise scan for the
exact marker. -/
def detectCompletion (content : List Char) : Bool :=
  if content = [] then false else includesSub content COMPLETION_MARKER

/-- State of a CompletionDetector instance. -/
structure CompletionDetector where
  isComplete : Bool
  contentBuffer : List Char

/-- CompletionDetector.processContent.  Returns the updated detector, the
isComplete field of the returned result, and whether the one-time
completion callback (onStatusChange with status complete) fired during
this call. -/
def CompletionDetector.processContent (s : CompletionDetector)
    (content : List Char) : CompletionDetector × Bool × Bool :=
  if content = [] then (s, false, false)
  else if s.isComplete then (s, true, false)
  else
    let buf0 := s.contentBuffer ++ content
    let buf := if buf0.length > 100 then buf0.drop (buf0.length - 100) else buf0
    if detectCompletion buf then (⟨true, buf⟩, true, true)
    else (⟨false, buf⟩, false, false)

/-- Folding processContent over a sequence of contents, counting how many
calls fired the completion callback. -/
def CompletionDetector.processSeq (s : CompletionDetector) :
    List (List Char) → CompletionDetector × Nat
  | [] => (s, 0)
  | c :: cs =>
    let r := s.processContent c
    let rest := r.1.processSeq cs
    (rest.1, (if r.2.2 then 1 else 0) + rest.2)

/-- A detector that is already complete is a fixpoint of processContent
and never fires the callback again. -/
theorem CompletionDetector.processContent_of_complete (s : CompletionDetector)
    (c : List Char) (h : s.isComplete = true) :
    (s.processContent c).1 = s ∧ (s.processContent c).2.2 = false := by
  unfold CompletionDetector.processContent
  by_cases hc : c = [] <;> simp [hc, h]

/-- A detector that is already complete stays unchanged over any call
sequence and fires no callback. -/
theorem CompletionDetector.processSeq_of_complete (s : CompletionDetector)
    (cs : List (List Char)) (h : s.isComplete = true) :
    (s.processSeq cs).1 = s ∧ (s.processSeq cs).2 = 0 := by
  induction cs generalizing s with
  | nil => exact ⟨rfl, rfl⟩
  | cons c cs ih =>
    have hfix := s.processContent_of_complete c h
    have hrest := ih (s.processContent c).1 (by rw [hfix.1]; exact h)
    simp only [CompletionDetector.processSeq, hfix.1, hfix.2]
    simpa [hfix.1] using hrest

/-- When processContent fires the callback, the resulting state is
complete. -/
theorem CompletionDetector.processContent_fired_complete (s : CompletionDetector)
    (c : List Char) (h : (s.processContent c).2.2 = true) :
    (s.processContent c).1.isComplete = true := by
  unfold CompletionDetector.processContent at h ⊢
  split at h
  next => simp at h
  next =>
    split at h
    next => simp at h
    next =>
      dsimp only at h ⊢
      split at h <;> split at h <;> simp_all

/-- Claim C6: the complete flag is sticky until reset, calls after
detection are no-ops, and the completion callback fires at most once:
over every call sequence, a detector that is already complete stays
complete and fires no callback, and from any state at most one call in
the sequence fires the callback. -/
theorem completionDetector_sticky_once (s : CompletionDetector)
    (cs : List (List Char)) (h : s.isComplete = true) :
    (s.processSeq cs).1.isComplete = true ∧ (s.processSeq cs).2 = 0 ∧
    ∀ s' : CompletionDetector, (s'.processSeq cs).2 ≤ 1 := by
  refine ⟨?_, (s.processSeq_of_complete cs h).2, ?_⟩
  · rw [(s.processSeq_of_complete cs h).1]; exact h
  · intro s'
    clear h
    induction cs generalizing s' with
    | nil => simp [CompletionDetector.processSeq]
    | cons c cs ih =>
      simp only [CompletionDetector.processSeq]
      by_cases hf : (s'.processContent c).2.2 = true
      · have hcomp := s'.processContent_fired_complete c hf
        have hz := ((s'.processContent c).1.processSeq_of_complete cs hcomp).2
        simp [hf, hz]
      · simp only [Bool.not_eq_true] at hf
        simpa [hf] using ih (s'.processContent c).1

/-- Witness for the C6 theorem at a concrete detector and call sequence. -/
theorem completionDetector_sticky_once_witness :
    ((CompletionDetector.mk true []).processSeq [['a'], []]).1.isComplete = true ∧
    ((CompletionDetector.mk true []).processSeq [['a'], []]).2 = 0 := by
  have h := completionDetector_sticky_once (CompletionDetector.mk true [])
    [['a'], []] rfl
  exact ⟨h.1, h.2.1⟩

/-- Claim C2 (code bug): processContent appends the content, trims the
buffer to its last 100 characters, and only then checks for the marker,
so a single payload carrying the marker followed by 74 further characters
is never detected even though the marker occurs in the accumulated text:
the marker is an infix of the payload, yet the detector stays incomplete
and its processContent call returns isComplete = false. -/
theorem completionDetector_marker_lost_after_long_payload :
    includesSub (COMPLETION_MARKER ++ List.replicate 74 'a') COMPLETION_MARKER
        = true ∧
    ((CompletionDetector.mk false []).processContent
        (COMPLETION_MARKER ++ List.replicate 74 'a')).1.isComplete = false ∧
    ((CompletionDetector.mk false []).processContent
        (COMPLETION_MARKER ++ List.replicate 74 'a')).2.1 = false := by
  decide

/-! ## Task detector (task-detection.ts, class TaskDetector)

The detector keeps the last surfaced task and a trailing content buffer
capped at 500 characters.  processContent appends and trims the buffer,
runs detectTaskFromContent over the whole buffer, and surfaces a detected
task via the onTaskChange callback only when it is nonempty and differs
from the current task, clearing the buffer on success.  The pure
detection function (the ordered regex table plus cleanTaskName) enters as
the abstract parameter detectF, so the theorems cover the concrete
patterns. -/

/-- State of a TaskDetector instance. -/
structure TaskDetector where
  currentTask : Option (List Char)
  contentBuffer : List Char

/-- TaskDetector.processContent, parameterized by detectTaskFromContent.
Returns the updated detector and the task surfaced through the
onTaskChange callback during this call, if any. -/
def TaskDetector.processContent (detectF : List Char → Option (List Char))
    (s : TaskDetector) (content : List Char) :
    TaskDetector × Option (List Char) :=
  if content = [] then (s, none)
  else
    let buf0 := s.contentBuffer ++ content
    let buf := if buf0.length > 500 then buf0.drop (buf0.length - 500) else buf0
    match detectF buf with
    | some t =>
      if t ≠ [] ∧ some t ≠ s.currentTask then (⟨some t, []⟩, some t)
      else (⟨s.currentTask, buf⟩, none)
    | none => (⟨s.currentTask, buf⟩, none)

/-- Folding processContent over a sequence of contents, collecting the
surfaced task notifications in order. -/
def TaskDetector.runSeq (detectF : List Char → Option (List Char))
    (s : TaskDetector) : List (List Char) → TaskDetector × List (List Char)
  | [] => (s, [])
  | c :: cs =>
    let r := TaskDetector.processContent detectF s c
    let rest := TaskDetector.runSeq detectF r.1 cs
    (rest.1, r.2.toList ++ rest.2)

/-- Each processContent call either surfaces nothing and keeps the
current task, or surfaces a task that differs from the current one and
becomes the new current task. -/
theorem TaskDetector.processContent_cases (detectF : List Char → Option (List Char))
    (s : TaskDetector) (c : List Char) :
    ((TaskDetector.processContent detectF s c).2 = none ∧
      (TaskDetector.processContent detectF s c).1.currentTask = s.currentTask) ∨
    ∃ t, (TaskDetector.processContent detectF s c).2 = some t ∧
      (TaskDetector.processContent detectF s c).1.currentTask = some t ∧
      some t ≠ s.currentTask := by
  unfold TaskDetector.processContent
  split
  next => exact Or.inl ⟨rfl, rfl⟩
  next =>
    dsimp only
    split
    next t _ =>
      split
      next hcond => exact Or.inr ⟨t, rfl, rfl, hcond.2⟩
      next => exact Or.inl ⟨rfl, rfl⟩
    next => exact Or.inl ⟨rfl, rfl⟩

/-- Claim C9: over every call sequence, each surfaced task differs from
the previously surfaced one (the initial current task included): the list
of the current task followed by all onTaskChange notifications has no two
equal adjacent values, so no two consecutive notifications coincide and
re-encountering the currently surfaced value fires no notification. -/
theorem taskDetector_no_duplicate_notifications
    (detectF : List Char → Option (List Char)) (s : TaskDetector)
    (cs : List (List Char)) :
    List.Chain' (· ≠ ·)
      (s.currentTask.toList ++ (TaskDetector.runSeq detectF s cs).2) := by
  induction cs generalizing s with
  | nil =>
    cases s.currentTask <;> simp [TaskDetector.runSeq]
  | cons c cs ih =>
    rcases TaskDetector.processContent_cases detectF s c with
      ⟨hn, hcur⟩ | ⟨t, hn, hcur, hne⟩
    · have := ih (TaskDetector.processContent detectF s c).1
      rw [hcur] at this
      simpa [TaskDetector.runSeq, hn] using this
    · have hrest := ih (TaskDetector.processContent detectF s c).1
      rw [hcur] at hrest
      simp only [Option.toList_some] at hrest
      simp only [TaskDetector.runSeq, hn, Option.toList_some]
      cases hc : s.currentTask with
      | none => simpa using hrest
      | some u =>
        have hut : u ≠ t := by
          intro hx
          exact hne (by rw [hc, hx])
        simpa using List.Chain'.cons hut hrest

/-! ## Process session outcome (runner.ts, runIteration close handler)

When the subprocess settles, the close handler first gives precedence to
cancellation (flag set, or killed by SIGTERM/SIGKILL), then reads the
completion detector, then interprets the exit code: 0 or null counts as
success, any other code fails with an error message. -/

/-- Outcome of one iteration, as resolved by runIteration. -/
structure IterationResult where
  success : Bool
  isComplete : Bool
  error : Option String := none
  exitCode : Option Int := none

/-- The close-handler resolution of runIteration, as a function of the
cancellation flag, the delivered termination signal, the exit code and
the completion detector state at process exit. -/
def closeOutcome (isCancelled : Bool) (signal : Option String)
    (code : Option Int) (detectorComplete : Bool) : IterationResult :=
  if isCancelled = true ∨ signal = some "SIGTERM" ∨ signal = some "SIGKILL" then
    { success := false, isComplete := false, error := some "Cancelled by user" }
  else
    match code with
    | none => { success := true, isComplete := detectorComplete, exitCode := some 0 }
    | some c =>
      if c = 0 then
        { success := true, isComplete := detectorComplete, exitCode := some 0 }
      else
        { success := false, isComplete := detectorComplete,
          error := some ("opencode exited with code " ++ toString c),
          exitCode := some c }

/-- Claim C8: without cancellation and without a termination signal, the
outcome succeeds exactly when the exit code is 0 or null (null counts as
success), every other code fails and carries an error message; a set
cancellation flag or a SIGTERM/SIGKILL signal always resolves as a
cancelled failure regardless of the exit code. -/
theorem closeOutcome_exit_code_interpretation (isCancelled : Bool)
    (signal : Option String) (code : Option Int) (det : Bool) :
    (¬ (isCancelled = true ∨ signal = some "SIGTERM" ∨ signal = some "SIGKILL") →
      ((closeOutcome isCancelled signal code det).success = true ↔
        (code = some 0 ∨ code = none)) ∧
      (closeOutcome isCancelled signal code det).isComplete = det ∧
      (∀ c : Int, code = some c → c ≠ 0 →
        (closeOutcome isCancelled signal code det).success = false ∧
        (closeOutcome isCancelled signal code det).error =
          some ("opencode exited with code " ++ toString c))) ∧
    ((isCancelled = true ∨ signal = some "SIGTERM" ∨ signal = some "SIGKILL") →
      (closeOutcome isCancelled signal code det).success = false ∧
      (closeOutcome isCancelled signal code det).isComplete = false ∧
      (closeOutcome isCancelled signal code det).error = some "Cancelled by user") := by
  constructor
  · intro hnc
    unfold closeOutcome
    rw [if_neg hnc]
    match code with
    | none => exact ⟨by simp, rfl, fun c hc => by simp at hc⟩
    | some c =>
      by_cases hc : c = 0
      · subst hc
        exact ⟨by simp, rfl, fun d hd hdz => by
          rw [Option.some_inj] at hd; exact absurd hd.symm hdz⟩
      · refine ⟨by simp [hc], by simp [hc], fun d hd hdz => ?_⟩
        rw [Option.some_inj] at hd
        subst hd
        simp [hc]
  · intro hcanc
    unfold closeOutcome
    rw [if_pos hcanc]
    exact ⟨rfl, rfl, rfl⟩

/-- Witness for the C8 theorem: exit code 2 without cancellation fails
with a message, and a SIGTERM settlement is resolved as cancelled. -/
theorem closeOutcome_exit_code_interpretation_witness :
    (closeOutcome false none (some 2) true).success = false ∧
    (closeOutcome false none (some 2) true).error =
      some ("opencode exited with code " ++ toString (2 : Int)) ∧
    (closeOutcome false (some "SIGTERM") (some 0) true).isComplete = false := by
  refine ⟨?_, ?_, ?_⟩
  · exact (((closeOutcome_exit_code_interpretation false none (some 2) true).1
      (by simp)).2.2 2 rfl (by decide)).1
  · exact (((closeOutcome_exit_code_interpretation false none (some 2) true).1
      (by simp)).2.2 2 rfl (by decide)).2
  · exact ((closeOutcome_exit_code_interpretation false (some "SIGTERM")
      (some 0) true).2 (by simp)).2.1

/-! ## Retry policy (runner.ts, runIterationWithRetry)

The wrapper attempts the iteration for attempt indices 0..MAX_RETRIES.
Before every retry (attempt index above 0) it notifies and sleeps the
retry delay, with no cancellation check of its own; runIteration itself
checks the cancellation flag before spawning and settles immediately as
cancelled when it is set.  A result with success or isComplete returns
immediately; after the last failed attempt the last result is returned
with retriesExhausted set. -/

/-- Maximum number of retry attempts per iteration. -/
def MAX_RETRIES : Nat := 3

/-- Observable actions of the retry loop: invoking runIteration, and
sleeping the inter-retry delay. -/
inductive RetryAction where
  | attemptCall : RetryAction
  | retrySleep : RetryAction
deriving DecidableEq

/-- Outcome of runIterationWithRetry. -/
structure IterationWithRetryResult extends IterationResult where
  retriesUsed : Nat
  retriesExhausted : Bool

/-- One invocation of runIteration for a given attempt: with the
cancellation flag set it settles immediately as cancelled before
spawning (runner.ts lines 473-481); otherwise the attempt proper runs,
abstracted as the function f from attempt index to settled outcome. -/
def iterationAttempt (isCancelled : Bool) (f : Nat → IterationResult)
    (attempt : Nat) : IterationResult :=
  if isCancelled then
    { success := false, isComplete := false, error := some "Cancelled by user" }
  else f attempt

/-- The attempt loop of runIterationWithRetry over the remaining attempt
indices, threading the retryCount and the last result, and recording the
trace of retry sleeps and runIteration invocations. -/
def retryLoop (isCancelled : Bool) (f : Nat → IterationResult) :
    List Nat → Nat → Option IterationResult →
      IterationWithRetryResult × List RetryAction
  | [], _, last =>
    ({ toIterationResult := last.getD
         { success := false, isComplete := false,
           error := some "Unknown error during retry" },
       retriesUsed := MAX_RETRIES, retriesExhausted := true }, [])
  | a :: rest, retryCount, _ =>
    let pre : List RetryAction := if 0 < a then [RetryAction.retrySleep] else []
    let rc := if 0 < a then a else retryCount
    let r := iterationAttempt isCancelled f a
    if r.success || r.isComplete then
      ({ toIterationResult := r, retriesUsed := rc, retriesExhausted := false },
        pre ++ [RetryAction.attemptCall])
    else
      let next := retryLoop isCancelled f rest rc (some r)
      (next.1, pre ++ RetryAction.attemptCall :: next.2)

/-- runIterationWithRetry: the initial attempt plus up to MAX_RETRIES
retries, returning the outcome and the trace of sleeps and invocations. -/
def runIterationWithRetry (isCancelled : Bool) (f : Nat → IterationResult) :
    IterationWithRetryResult × List RetryAction :=
  retryLoop isCancelled f (List.range (MAX_RETRIES + 1)) 0 none

/-- Claim C3: an attempt function that fails (neither success nor
completion) on its first k attempts, k at most MAX_RETRIES, and succeeds
on attempt k+1 makes the wrapper return success with retriesUsed = k; an
attempt function that always fails makes it return retriesExhausted with
retriesUsed = MAX_RETRIES after exactly 4 invocations of the attempt. -/
theorem retry_policy_contract (f : Nat → IterationResult) :
    (∀ k : Nat, k ≤ MAX_RETRIES →
      (∀ j, j < k → (f j).success = false ∧ (f j).isComplete = false) →
      (f k).success = true →
      (runIterationWithRetry false f).1.success = true ∧
      (runIterationWithRetry false f).1.retriesUsed = k ∧
      (runIterationWithRetry false f).1.retriesExhausted = false) ∧
    ((∀ j, (f j).success = false ∧ (f j).isComplete = false) →
      (runIterationWithRetry false f).1.retriesExhausted = true ∧
      (runIterationWithRetry false f).1.retriesUsed = MAX_RETRIES ∧
      (runIterationWithRetry false f).2.count RetryAction.attemptCall = 4) := by
  have hrange : List.range (MAX_RETRIES + 1) = [0, 1, 2, 3] := by decide
  constructor
  · intro k hk hfail hsucc
    have hk3 : k ≤ 3 := hk
    unfold runIterationWithRetry
    rw [hrange]
    interval_cases k
    · simp [retryLoop, iterationAttempt, hsucc]
    · have h0 := hfail 0 (by omega)
      simp [retryLoop, iterationAttempt, h0.1, h0.2, hsucc]
    · have h0 := hfail 0 (by omega)
      have h1 := hfail 1 (by omega)
      simp [retryLoop, iterationAttempt, h0.1, h0.2, h1.1, h1.2, hsucc]
    · have h0 := hfail 0 (by omega)
      have h1 := hfail 1 (by omega)
      have h2 := hfail 2 (by omega)
      simp [retryLoop, iterationAttempt, h0.1, h0.2, h1.1, h1.2, h2.1, h2.2,
        hsucc, MAX_RETRIES]
  · intro hfail
    unfold runIterationWithRetry
    rw [hrange]
    simp [retryLoop, iterationAttempt, (hfail 0).1, (hfail 0).2, (hfail 1).1,
      (hfail 1).2, (hfail 2).1, (hfail 2).2, (hfail 3).1, (hfail 3).2,
      List.count_cons, MAX_RETRIES]

/-- Witness for the C3 theorem: two failures then a success use two
retries; a constant failure exhausts the retries with four attempts. -/
theorem retry_policy_contract_witness :
    ((runIterationWithRetry false (fun j =>
        if j < 2 then { success := false, isComplete := false }
        else { success := true, isComplete := false })).1.success = true ∧
      (runIterationWithRetry false (fun j =>
        if j < 2 then { success := false, isComplete := false }
        else { success := true, isComplete := false })).1.retriesUsed = 2 ∧
      (runIterationWithRetry false (fun j =>
        if j < 2 then { success := false, isComplete := false }
        else { success := true, isComplete := false })).1.retriesExhausted = false) ∧
    ((runIterationWithRetry false
        (fun _ => { success := false, isComplete := false })).1.retriesExhausted = true ∧
      (runIterationWithRetry false
        (fun _ => { success := false, isComplete := false })).1.retriesUsed = MAX_RETRIES ∧
      (runIterationWithRetry false
        (fun _ => { success := false, isComplete := false })).2.count
          RetryAction.attemptCall = 4) := by
  constructor
  · exact (retry_policy_contract (fun j =>
      if j < 2 then { success := false, isComplete := false }
      else { success := true, isComplete := false })).1 2 (by decide)
      (fun j hj => by simp [hj]) (by simp)
  · exact (retry_policy_contract
      (fun _ => { success := false, isComplete := false })).2
      (fun j => ⟨rfl, rfl⟩)

/-- Any exhausted result of the retry loop stems from a failed,
non-completed last attempt (or the built-in fallback), so it is neither
successful nor complete. -/
theorem retryLoop_exhausted_failed (isCancelled : Bool) (f : Nat → IterationResult)
    (l : List Nat) :
    ∀ (rc : Nat) (last : Option IterationResult),
    (∀ r, last = some r → r.success = false ∧ r.isComplete = false) →
    (retryLoop isCancelled f l rc last).1.retriesExhausted = true →
    (retryLoop isCancelled f l rc last).1.success = false ∧
    (retryLoop isCancelled f l rc last).1.isComplete = false := by
  induction l with
  | nil =>
    intro rc last hlast _
    cases last with
    | none => exact ⟨rfl, rfl⟩
    | some r => simpa [retryLoop] using hlast r rfl
  | cons a rest ih =>
    intro rc last hlast hx
    dsimp only [retryLoop] at hx ⊢
    cases hc : ((iterationAttempt isCancelled f a).success ||
        (iterationAttempt isCancelled f a).isComplete) with
    | true => simp [hc] at hx
    | false =>
      simp only [hc, Bool.false_eq_true, if_false] at hx ⊢
      simp only [Bool.or_eq_false_iff] at hc
      exact ih _ (some _) (fun r' hr' => by cases hr'; exact hc) hx

/-- Claim C7: for every attempt function, an outcome of the retry
wrapper with retriesExhausted set has success = false and
isComplete = false. -/
theorem retriesExhausted_implies_failure (isCancelled : Bool)
    (f : Nat → IterationResult)
    (h : (runIterationWithRetry isCancelled f).1.retriesExhausted = true) :
    (runIterationWithRetry isCancelled f).1.success = false ∧
    (runIterationWithRetry isCancelled f).1.isComplete = false :=
  retryLoop_exhausted_failed isCancelled f _ _ _ (fun _ hr => nomatch hr) h

/-- Witness for the C7 theorem at a constantly failing attempt. -/
theorem retriesExhausted_implies_failure_witness :
    (runIterationWithRetry false
      (fun _ => { success := false, isComplete := false })).1.success = false ∧
    (runIterationWithRetry false
      (fun _ => { success := false, isComplete := false })).1.isComplete = false :=
  retriesExhausted_implies_failure false _ (by decide)

/-- Claim C5 (code bug): with the cancellation flag set, every attempt
settles immediately as cancelled (success and isComplete both false), so
the retry loop does not stop: it sleeps the inter-retry delay three
times and re-invokes runIteration three more times before returning
exhausted — the wrapper has no cancellation check before the delay and
retries the explicitly cancelled outcome. -/
theorem cancelled_attempt_still_sleeps_and_reinvokes :
    (runIterationWithRetry true (fun _ =>
      { success := true, isComplete := true })).2.count
        RetryAction.retrySleep = 3 ∧
    (runIterationWithRetry true (fun _ =>
      { success := true, isComplete := true })).2.count
        RetryAction.attemptCall = 4 ∧
    (runIterationWithRetry true (fun _ =>
      { success := true, isComplete := true })).1.retriesExhausted = true := by
  decide

/-! ## Iteration supervisor (runner.ts, run)

The main loop drives iterations 1..config.iterations.  Each iteration
runs the retry-wrapped attempt; a completed result stops the run as
complete, an exhausted result stops it as an error, any other result
continues to the next iteration; exhausting the ceiling stops as an
error.  The model below describes an execution in which no cancellation
signal is ever delivered, so the isCancelled checkpoints of run (before
each iteration, after each iteration, and after the inter-iteration
delay) never fire. -/

/-- Status values emitted through onStatusChange. -/
inductive RunnerStatus where
  | running : RunnerStatus
  | complete : RunnerStatus
  | error : RunnerStatus
  | cancelled : RunnerStatus
deriving DecidableEq

/-- Result of the full runner execution. -/
structure RunnerResult where
  success : Bool
  isComplete : Bool
  iterationsRun : Nat
  error : Option String := none

/-- The iteration loop of run: remaining is the number of iterations
still allowed, i the 1-based index of the next iteration, g the
retry-wrapped outcome of each iteration.  Returns the runner result and
the status changes emitted after the initial running status. -/
def runLoop (g : Nat → IterationWithRetryResult) :
    Nat → Nat → RunnerResult × List RunnerStatus
  | 0, i =>
    ({ success := false, isComplete := false, iterationsRun := i - 1,
       error := some "Max iterations reached without completion" },
      [RunnerStatus.error])
  | rem + 1, i =>
    let result := g i
    if result.isComplete then
      ({ success := true, isComplete := true, iterationsRun := i },
        [RunnerStatus.complete])
    else if result.retriesExhausted then
      ({ success := false, isComplete := false, iterationsRun := i,
         error := some ("All 3 retries exhausted for iteration " ++ toString i) },
        [RunnerStatus.error])
    else
      runLoop g rem (i + 1)

/-- run for a signal-free execution: emits the running status, then
drives the loop from iteration 1. -/
def runModel (iterations : Nat) (g : Nat → IterationWithRetryResult) :
    RunnerResult × List RunnerStatus :=
  ((runLoop g iterations 1).1, RunnerStatus.running :: (runLoop g iterations 1).2)

/-- The loop stops at the first completed iteration: if no iteration
strictly before the target completes or exhausts its retries and the
target iteration completes within the remaining budget, the loop returns
the completed result at the target index. -/
theorem runLoop_first_completion (g : Nat → IterationWithRetryResult)
    (rem i target : Nat) (h1 : i ≤ target) (h2 : target < i + rem)
    (hb : ∀ j, i ≤ j → j < target →
      (g j).isComplete = false ∧ (g j).retriesExhausted = false)
    (hc : (g target).isComplete = true) :
    runLoop g rem i =
      ({ success := true, isComplete := true, iterationsRun := target },
        [RunnerStatus.complete]) := by
  induction rem generalizing i with
  | zero => omega
  | succ rem ih =>
    by_cases he : i = target
    · subst he
      simp [runLoop, hc]
    · have hlt : i < target := lt_of_le_of_ne h1 he
      have hbi := hb i le_rfl hlt
      simp only [runLoop, hbi.1, hbi.2, Bool.false_eq_true, if_false]
      exact ih (i + 1) (by omega) (by omega)
        (fun j hj1 hj2 => hb j (by omega) hj2)

/-- Claim C4: in a run of N iterations whose attempts neither complete
nor exhaust their retries before iteration i, and whose attempt at
iteration i < N completes, the supervisor stops right after iteration i:
the result is complete and successful with iterationsRun = i, a complete
status change is emitted, and the outcome only depends on the attempts
up to iteration i — later iterations are never started. -/
theorem supervisor_stops_at_first_completion (N i : Nat)
    (g : Nat → IterationWithRetryResult) (_hN : 2 ≤ N) (hi1 : 1 ≤ i)
    (hiN : i < N)
    (hb : ∀ j, 1 ≤ j → j < i →
      (g j).isComplete = false ∧ (g j).retriesExhausted = false)
    (hc : (g i).isComplete = true) :
    (runModel N g).1.success = true ∧
    (runModel N g).1.isComplete = true ∧
    (runModel N g).1.iterationsRun = i ∧
    RunnerStatus.complete ∈ (runModel N g).2 ∧
    ∀ g' : Nat → IterationWithRetryResult,
      (∀ j, j ≤ i → g' j = g j) → runModel N g' = runModel N g := by
  have hloop := runLoop_first_completion g N 1 i hi1 (by omega) hb hc
  refine ⟨?_, ?_, ?_, ?_, ?_⟩
  · simp [runModel, hloop]
  · simp [runModel, hloop]
  · simp [runModel, hloop]
  · simp [runModel, hloop]
  · intro g' hg
    have hb' : ∀ j, 1 ≤ j → j < i →
        (g' j).isComplete = false ∧ (g' j).retriesExhausted = false :=
      fun j hj1 hj2 => by rw [hg j (by omega)]; exact hb j hj1 hj2
    have hc' : (g' i).isComplete = true := by rw [hg i le_rfl]; exact hc
    have hloop' := runLoop_first_completion g' N 1 i hi1 (by omega) hb' hc'
    simp [runModel, hloop, hloop']

/-- Witness for the C4 theorem: a five-iteration run completing on
iteration 2 stops with exactly two iterations executed. -/
theorem supervisor_stops_at_first_completion_witness :
    (runModel 5 (fun j =>
      { success := true, isComplete := decide (2 ≤ j), error := none,
        exitCode := none, retriesUsed := 0, retriesExhausted := false })).1.isComplete
        = true ∧
    (runModel 5 (fun j =>
      { success := true, isComplete := decide (2 ≤ j), error := none,
        exitCode := none, retriesUsed := 0, retriesExhausted := false })).1.iterationsRun
        = 2 := by
  have h := supervisor_stops_at_first_completion 5 2 (fun j =>
    { success := true, isComplete := decide (2 ≤ j), error := none,
      exitCode := none, retriesUsed := 0, retriesExhausted := false })
    (by decide) (by decide) (by decide)
    (fun j hj1 hj2 => by
      have hj : j = 1 := by omega
      subst hj
      exact ⟨rfl, rfl⟩)
    rfl
  exact ⟨h.2.1, h.2.2.1⟩

/-- Claim C10: a non-zero exit without cancellation while the completion
marker was detected yields an attempt outcome with success = false and
isComplete = true; the retry wrapper returns it immediately (one
invocation, no retries, not exhausted), and the supervisor ends the run
as complete with success = true — completion overrides the exit-code
failure. -/
theorem completion_overrides_nonzero_exit (c : Int) (N : Nat) (hc : c ≠ 0)
    (hN : 1 ≤ N) :
    (closeOutcome false none (some c) true).success = false ∧
    (closeOutcome false none (some c) true).isComplete = true ∧
    (runIterationWithRetry false
      (fun _ => closeOutcome false none (some c) true)).1.retriesExhausted = false ∧
    (runIterationWithRetry false
      (fun _ => closeOutcome false none (some c) true)).1.retriesUsed = 0 ∧
    (runIterationWithRetry false
      (fun _ => closeOutcome false none (some c) true)).2.count
        RetryAction.attemptCall = 1 ∧
    (runModel N (fun _ => (runIterationWithRetry false
      (fun _ => closeOutcome false none (some c) true)).1)).1.success = true ∧
    (runModel N (fun _ => (runIterationWithRetry false
      (fun _ => closeOutcome false none (some c) true)).1)).1.isComplete = true ∧
    RunnerStatus.complete ∈ (runModel N (fun _ => (runIterationWithRetry false
      (fun _ => closeOutcome false none (some c) true)).1)).2 := by
  have hr : closeOutcome false none (some c) true =
      { success := false, isComplete := true,
        error := some ("opencode exited with code " ++ toString c),
        exitCode := some c } := by
    simp [closeOutcome, hc]
  have hwrap : (runIterationWithRetry false
      (fun _ => closeOutcome false none (some c) true)) =
      ({ toIterationResult := closeOutcome false none (some c) true,
         retriesUsed := 0, retriesExhausted := false },
        [RetryAction.attemptCall]) := by
    unfold runIterationWithRetry
    rw [show List.range (MAX_RETRIES + 1) = [0, 1, 2, 3] from by decide]
    simp [retryLoop, iterationAttempt, hr]
  have hcomp : (runIterationWithRetry false
      (fun _ => closeOutcome false none (some c) true)).1.isComplete = true := by
    rw [hwrap, hr]
  obtain ⟨rem, rfl⟩ : ∃ rem, N = rem + 1 := ⟨N - 1, by omega⟩
  refine ⟨by rw [hr], by rw [hr], ?_, ?_, ?_, ?_, ?_, ?_⟩
  · rw [hwrap]
  · rw [hwrap]
  · rw [hwrap]; rfl
  · simp [runModel, runLoop, hcomp]
  · simp [runModel, runLoop, hcomp]
  · simp [runModel, runLoop, hcomp]

/-- Witness for the C10 theorem at exit code 2 in a five-iteration run. -/
theorem completion_overrides_nonzero_exit_witness :
    (closeOutcome false none (some 2) true).isComplete = true ∧
    (runModel 5 (fun _ => (runIterationWithRetry false
      (fun _ => closeOutcome false none (some 2) true)).1)).1.success = true :=
  ⟨(completion_overrides_nonzero_exit 2 5 (by decide) (by decide)).2.1,
    (completion_overrides_nonzero_exit 2 5 (by decide) (by decide)).2.2.2.2.2.1⟩

end Ralph
